import Mathlib

/-!
Verification of the real-time audio streaming core of the repository.

The embedding covers, translated from the source:
* the sample codec `encodeAudio` / `decodeAudioData` (clamp, asymmetric
  16-bit quantization, little-endian byte packing, division by 32768 on
  decode);
* the playback scheduler used by both `scheduleChunk` (text-to-speech
  path) and the live-session `onmessage` handler (cursor update
  `start = max(currentTime, nextStartTime); nextStartTime = start + duration`);
* `stopAudio`, the cursor-mutating operations, and the two unmount
  cleanups (teardown);
* the capture callback `processor.onaudioprocess` (mute gate, RMS,
  loudness, encode-and-send).

Samples are modelled as rationals.  Every numeric step of the source is
exact in binary floating point for the inputs considered here (scaling by
32767 or 32768, truncation toward zero, division by the power of two
32768), so the rational model computes the very values the JavaScript
code computes.  The base64 transport (`btoa`/`atob`) is a bijection
between byte strings and text and is modelled as the identity on byte
lists; its failure on malformed text is folded into the decode failure
case.  Loudness involves `Math.sqrt` and is modelled over the reals.
-/

namespace AudioCore

/-! ## Sample codec (`encodeAudio` / `decodeAudioData`) -/

/-- Clamping step of `encodeAudio`:
    `const s = Math.max(-1, Math.min(1, inputData[i]))`. -/
def clamp (s : ℚ) : ℚ := max (-1) (min 1 s)

/-- JavaScript ToIntegerOrInfinity on a finite value: truncation toward
    zero, applied when a number is stored into an `Int16Array`. -/
def jsTrunc (q : ℚ) : ℤ := if q < 0 then ⌈q⌉ else ⌊q⌋

/-- Wrap of an integer into signed 16-bit range, the final step of storing
    into an `Int16Array` element. -/
def toInt16 (n : ℤ) : ℤ := (n + 32768) % 65536 - 32768

/-- Quantization performed by `encodeAudio`:
    `int16[i] = s < 0 ? s * 0x8000 : s * 0x7FFF` after clamping, stored
    into an `Int16Array` (truncate toward zero, wrap to 16 bits). -/
def quantize (x : ℚ) : ℤ :=
  toInt16 (jsTrunc (if clamp x < 0 then clamp x * 32768 else clamp x * 32767))

/-- Little-endian byte pair of a signed 16-bit value, as exposed by the
    `Uint8Array` view over the `Int16Array` buffer. -/
def int16ToBytes (v : ℤ) : List ℕ :=
  [(v % 65536).toNat % 256, (v % 65536).toNat / 256]

/-- Body of `encodeAudio`: clamp and quantize each sample, serialize the
    16-bit values little-endian.  The final `btoa` is modelled as the
    identity on the byte list. -/
def encodeAudio (x : List ℚ) : List ℕ :=
  x.flatMap (fun s => int16ToBytes (quantize s))

/-- Reassembly of little-endian byte pairs into signed 16-bit integers,
    the `new Int16Array(bytes.buffer)` view.  An odd number of bytes makes
    that construction throw a RangeError, modelled as `none`. -/
def bytesToInt16 : List ℕ → Option (List ℤ)
  | [] => some []
  | [_] => none
  | lo :: hi :: rest =>
    (bytesToInt16 rest).map
      (fun t =>
        (if lo + 256 * hi < 32768 then ((lo + 256 * hi : ℕ) : ℤ)
         else ((lo + 256 * hi : ℕ) : ℤ) - 65536) :: t)

/-- Body of `decodeAudioData`: bytes to 16-bit integers, then
    `float32[i] = int16[i] / 32768.0` (exact: a power-of-two divisor).
    `none` models the exception thrown on malformed input. -/
def decodeAudioData (bytes : List ℕ) : Option (List ℚ) :=
  (bytesToInt16 bytes).map (List.map (fun v : ℤ => (v : ℚ) / 32768))

/-! ## Playback scheduler -/

/-- One cursor step shared by `scheduleChunk` and the live `onmessage`
    handler: `const start = Math.max(ctx.currentTime, nextStartTimeRef.current);
    source.start(start); nextStartTimeRef.current = start + buffer.duration;`.
    Input: current cursor, device time of arrival, fragment duration.
    Output: (assigned start time, new cursor). -/
def schedStep (next now d : ℚ) : ℚ × ℚ :=
  (max now next, max now next + d)

/-- Start times assigned to a whole arrival sequence (device time,
    duration), threading the cursor exactly as the source does. -/
def schedStarts : ℚ → List (ℚ × ℚ) → List ℚ
  | _, [] => []
  | next, a :: rest =>
    (schedStep next a.1 a.2).1 :: schedStarts (schedStep next a.1 a.2).2 rest

/-- Status of an `AudioBufferSourceNode` held in `sourcesRef.current`. -/
inductive SrcStatus
  | playing
  | finished
  | stopped
deriving DecidableEq

/-- Effect of `try { source.stop() } catch (e) {}` on one source: a playing
    source is halted; on an already-finished source the underlying call is
    absorbed by the catch, a safe no-op.  Totality of this function is the
    no-throw property. -/
def haltSource : SrcStatus → SrcStatus
  | SrcStatus.playing => SrcStatus.stopped
  | SrcStatus.finished => SrcStatus.finished
  | SrcStatus.stopped => SrcStatus.stopped

/-- Mutable state of the text-to-speech playback path: `sourcesRef.current`
    (the pending-fragment set), the `isSpeaking` flag, and
    `nextStartTimeRef.current`. -/
structure TTSState where
  sources : List SrcStatus
  isSpeaking : Bool
  nextStartTime : ℚ
deriving DecidableEq

/-- Body of `stopAudio`: halt every pending source (each through the
    guarded `try`), clear `sourcesRef.current`, drop the speaking flag,
    reset the cursor to zero.  First component: the new state; second
    component: the statuses after the halting `forEach` pass. -/
def stopAudio (st : TTSState) : TTSState × List SrcStatus :=
  (⟨[], false, 0⟩, st.sources.map haltSource)

/-- Body of `scheduleChunk`: decode the chunk inside `try`; on failure log
    and return `null` with every piece of state untouched; on success
    create a buffer whose duration is `length / 24000` seconds, schedule it
    at `max(ctx.currentTime, nextStartTime)`, advance the cursor and push
    the new source.  Second component: the returned start time (`none`
    models the `null` return of the catch branch). -/
def scheduleChunk (st : TTSState) (now : ℚ) (bytes : List ℕ) :
    TTSState × Option ℚ :=
  match decodeAudioData bytes with
  | none => (st, none)
  | some samples =>
    (⟨st.sources ++ [SrcStatus.playing], st.isSpeaking,
      (schedStep st.nextStartTime now ((samples.length : ℚ) / 24000)).2⟩,
     some (schedStep st.nextStartTime now ((samples.length : ℚ) / 24000)).1)

/-- Session status of the live component
    (`useState<'connecting' | 'connected' | 'error'>`). -/
inductive LiveStatus
  | connecting
  | connected
  | error
deriving DecidableEq

/-- State the live `onmessage` audio branch can read or write: the
    session status and `nextStartTimeRef.current`. -/
structure LiveState where
  status : LiveStatus
  nextStartTime : ℚ
deriving DecidableEq

/-- Browser-level outcome of delivering one audio chunk to the live
    `onmessage` callback: the state after the callback, the start time
    assigned when a fragment was scheduled, and the exception escaping
    the callback, if any.  The handler runs `decodeAudioData` with no
    surrounding try/catch (the only `try` of the component wraps
    `connect`, long exited when messages arrive), so a malformed chunk —
    odd byte length, the RangeError of the `Int16Array` view — makes the
    callback throw before any mutation: the exception escapes uncaught,
    the component neither catches nor logs it, and both the cursor and
    the status are left exactly as they were.  A well-formed chunk is
    scheduled at `max(ctx.currentTime, nextStartTimeRef.current)` just as
    in `scheduleChunk`.  The cosmetic `setVolumeLevel` animation calls of
    the handler touch no audio or session state and are outside this
    model. -/
def liveOnMessage (st : LiveState) (now : ℚ) (bytes : List ℕ) :
    LiveState × Option ℚ × Option String :=
  match decodeAudioData bytes with
  | none => (st, none, some "RangeError")
  | some samples =>
    (⟨st.status,
      (schedStep st.nextStartTime now ((samples.length : ℚ) / 24000)).2⟩,
     some (schedStep st.nextStartTime now ((samples.length : ℚ) / 24000)).1,
     none)

/-- The three places in the source that assign `nextStartTimeRef.current`. -/
inductive CursorOp
  /-- Mutation by `scheduleChunk` / `onmessage`: `nextStartTime = max(now, next) + d`. -/
  | schedule (now d : ℚ)
  /-- Session start in `handleSpeak`: `nextStartTimeRef.current = audioContextRef.current.currentTime`. -/
  | sessionStart (now : ℚ)
  /-- Mutation by `stopAudio`: `nextStartTimeRef.current = 0`. -/
  | stop
deriving DecidableEq

/-- Cursor value after one mutating operation of the source. -/
def applyCursorOp (next : ℚ) : CursorOp → ℚ
  | CursorOp.schedule now d => (schedStep next now d).2
  | CursorOp.sessionStart now => now
  | CursorOp.stop => 0

/-- Durations are lengths divided by the sample rate, hence non-negative;
    this is the side condition a `schedule` operation always satisfies. -/
def opWellFormed : CursorOp → Prop
  | CursorOp.schedule _ d => 0 ≤ d
  | CursorOp.sessionStart _ => True
  | CursorOp.stop => True

/-! ## Capture path (`processor.onaudioprocess`) -/

/-- Sum of squares accumulated by the loop
    `for (...) { sum += inputData[i] * inputData[i]; }`. -/
def frameSumSq (frame : List ℚ) : ℚ :=
  frame.foldl (fun acc s => acc + s * s) 0

/-- RMS of the frame: `const rms = Math.sqrt(sum / inputData.length)`. -/
noncomputable def rms (frame : List ℚ) : ℝ :=
  Real.sqrt ((frameSumSq frame : ℝ) / (frame.length : ℝ))

/-- Published loudness: `setVolumeLevel(Math.min(rms * 5, 1))`. -/
noncomputable def loudness (frame : List ℚ) : ℝ :=
  min (rms frame * 5) 1

/-- Observable effect of one `onaudioprocess` callback: the loudness value
    passed to `setVolumeLevel`, and the chunk handed to
    `session.sendRealtimeInput` (each `none` when the step is skipped). -/
structure CaptureResult where
  volumeUpdate : Option ℝ
  sentChunk : Option (List ℕ)

/-- Body of `processor.onaudioprocess`: `if (isMuted) return;`, then the
    RMS/loudness computation and publication, then encode and transport
    delivery. -/
noncomputable def onaudioprocess (isMuted : Bool) (frame : List ℚ) :
    CaptureResult :=
  if isMuted then ⟨none, none⟩
  else ⟨some (loudness frame), some (encodeAudio frame)⟩

/-! ## Teardown (unmount cleanups) -/

/-- State of an `AudioContext`. -/
inductive CtxState
  | running
  | closed
deriving DecidableEq

/-- Close call on an audio context: if the context is already closed the returned
    promise is rejected with an InvalidStateError; otherwise the context
    transitions to closed. -/
def closeCtx : CtxState → Except String CtxState
  | CtxState.closed => Except.error "InvalidStateError"
  | CtxState.running => Except.ok CtxState.closed

/-- Resources owned by the live-session component, mirroring its refs:
    `mediaStreamRef` (tracks, `true` = live), `processorRef` and
    `sourceRef` (`true` = connected), `audioContextRef`.  `none` models a
    ref that was never assigned. -/
structure LiveResources where
  tracks : Option (List Bool)
  processorConn : Option Bool
  sourceConn : Option Bool
  ctx : Option CtxState
deriving DecidableEq

/-- The live-session effect cleanup:
    stop every media track (`MediaStreamTrack.stop` is idempotent),
    disconnect processor and source (idempotent), then
    `audioContextRef.current.close()` guarded only by ref presence — not
    by context state.  The refs themselves are never cleared.  Second
    component: errors signalled by the underlying calls. -/
def liveCleanup (r : LiveResources) : LiveResources × List String :=
  match r.ctx with
  | none =>
    (⟨r.tracks.map (List.map (fun _ => false)),
      r.processorConn.map (fun _ => false),
      r.sourceConn.map (fun _ => false), none⟩, [])
  | some c =>
    match closeCtx c with
    | Except.ok c2 =>
      (⟨r.tracks.map (List.map (fun _ => false)),
        r.processorConn.map (fun _ => false),
        r.sourceConn.map (fun _ => false), some c2⟩, [])
    | Except.error e =>
      (⟨r.tracks.map (List.map (fun _ => false)),
        r.processorConn.map (fun _ => false),
        r.sourceConn.map (fun _ => false), some c⟩, [e])

/-- The message-bubble unmount cleanup: `stopAudio()`, then close the
    context only `if (audioContextRef.current && audioContextRef.current.state !== 'closed')`.
    Components: playback state after cleanup, context after cleanup,
    errors signalled. -/
def bubbleCleanup (st : TTSState) (ctx : Option CtxState) :
    TTSState × Option CtxState × List String :=
  match ctx with
  | none => ((stopAudio st).1, none, [])
  | some c =>
    if c ≠ CtxState.closed then
      match closeCtx c with
      | Except.ok c2 => ((stopAudio st).1, some c2, [])
      | Except.error e => ((stopAudio st).1, some c, [e])
    else ((stopAudio st).1, some c, [])

/-! ## Codec lemmas -/

lemma clamp_mem (s : ℚ) : -1 ≤ clamp s ∧ clamp s ≤ 1 := by
  unfold clamp
  constructor
  · exact le_max_left _ _
  · rcases le_total (-1 : ℚ) (min 1 s) with h | h
    · rw [max_eq_right h]; exact min_le_left _ _
    · rw [max_eq_left h]; norm_num

lemma clamp_of_mem (s : ℚ) (h1 : -1 ≤ s) (h2 : s ≤ 1) : clamp s = s := by
  unfold clamp
  rw [min_eq_right h2, max_eq_right h1]

lemma toInt16_of_range (v : ℤ) (h1 : -32768 ≤ v) (h2 : v ≤ 32767) :
    toInt16 v = v := by
  unfold toInt16
  omega

/-- The quantized value of any sample fits the signed 16-bit range, so the
    `Int16Array` store never actually wraps. -/
lemma quantize_range (x : ℚ) : -32768 ≤ quantize x ∧ quantize x ≤ 32767 := by
  obtain ⟨hl, hr⟩ := clamp_mem x
  unfold quantize jsTrunc
  split
  · next hneg =>
    have ht : clamp x * 32768 < 0 := by nlinarith
    rw [if_pos ht]
    have hc1 : (-32768 : ℤ) ≤ ⌈clamp x * 32768⌉ := by
      have : ((-32768 : ℤ) : ℚ) ≤ clamp x * 32768 := by push_cast; nlinarith
      calc (-32768 : ℤ) = ⌈((-32768 : ℤ) : ℚ)⌉ := (Int.ceil_intCast _).symm
        _ ≤ ⌈clamp x * 32768⌉ := Int.ceil_le_ceil this
    have hc2 : ⌈clamp x * 32768⌉ ≤ 0 :=
      Int.ceil_le.mpr (by exact_mod_cast le_of_lt ht)
    rw [toInt16_of_range _ hc1 (by omega)]
    omega
  · next hpos =>
    have hge : (0 : ℚ) ≤ clamp x := le_of_not_lt hpos
    have ht : ¬ clamp x * 32767 < 0 := by nlinarith
    rw [if_neg ht]
    have hf1 : (0 : ℤ) ≤ ⌊clamp x * 32767⌋ := by
      apply Int.floor_nonneg.mpr; nlinarith
    have hf2 : ⌊clamp x * 32767⌋ ≤ 32767 := by
      have : clamp x * 32767 ≤ ((32767 : ℤ) : ℚ) := by push_cast; nlinarith
      calc ⌊clamp x * 32767⌋ ≤ ⌊((32767 : ℤ) : ℚ)⌋ := Int.floor_le_floor this
        _ = 32767 := Int.floor_intCast _
    rw [toInt16_of_range _ (by omega) hf2]
    omega

/-- Value of the quantizer on an in-range negative sample: ceiling
    (truncation toward zero) of the sample scaled by 32768. -/
lemma quantize_neg (s : ℚ) (h1 : -1 ≤ s) (hneg : s < 0) :
    quantize s = ⌈s * 32768⌉ := by
  unfold quantize jsTrunc
  rw [clamp_of_mem s h1 (by linarith)]
  rw [if_pos hneg, if_pos (by nlinarith : s * 32768 < 0)]
  apply toInt16_of_range
  · have : ((-32768 : ℤ) : ℚ) ≤ s * 32768 := by push_cast; nlinarith
    calc (-32768 : ℤ) = ⌈((-32768 : ℤ) : ℚ)⌉ := (Int.ceil_intCast _).symm
      _ ≤ ⌈s * 32768⌉ := Int.ceil_le_ceil this
  · have : ⌈s * 32768⌉ ≤ 0 :=
      Int.ceil_le.mpr (by push_cast; nlinarith)
    omega

/-- Value of the quantizer on an in-range non-negative sample: floor of
    the sample scaled by 32767. -/
lemma quantize_nonneg (s : ℚ) (hpos : 0 ≤ s) (h2 : s ≤ 1) :
    quantize s = ⌊s * 32767⌋ := by
  unfold quantize jsTrunc
  rw [clamp_of_mem s (by linarith) h2]
  rw [if_neg (by linarith : ¬ s < 0), if_neg (by nlinarith : ¬ s * 32767 < 0)]
  apply toInt16_of_range
  · have : (0 : ℤ) ≤ ⌊s * 32767⌋ := Int.floor_nonneg.mpr (by nlinarith)
    omega
  · have : s * 32767 ≤ ((32767 : ℤ) : ℚ) := by push_cast; nlinarith
    calc ⌊s * 32767⌋ ≤ ⌊((32767 : ℤ) : ℚ)⌋ := Int.floor_le_floor this
      _ = 32767 := Int.floor_intCast _

/-- Round trip of one 16-bit value through the little-endian byte pair. -/
lemma bytesToInt16_int16ToBytes (v : ℤ) (h1 : -32768 ≤ v) (h2 : v ≤ 32767)
    (rest : List ℕ) :
    bytesToInt16 (int16ToBytes v ++ rest) =
      (bytesToInt16 rest).map (fun t => v :: t) := by
  show bytesToInt16 ((v % 65536).toNat % 256 :: (v % 65536).toNat / 256 :: rest) = _
  rw [bytesToInt16]
  have hv : (((v % 65536).toNat % 256 + 256 * ((v % 65536).toNat / 256) : ℕ) : ℤ) =
      v % 65536 := by omega
  have hw : (if (v % 65536).toNat % 256 + 256 * ((v % 65536).toNat / 256) < 32768
      then (((v % 65536).toNat % 256 + 256 * ((v % 65536).toNat / 256) : ℕ) : ℤ)
      else (((v % 65536).toNat % 256 + 256 * ((v % 65536).toNat / 256) : ℕ) : ℤ) - 65536) =
      v := by
    split
    · next hlt => omega
    · next hlt => omega
  rw [hw]

/-- Decoding an encoded sample list recovers exactly the quantized
    16-bit values. -/
lemma bytesToInt16_encodeAudio (x : List ℚ) :
    bytesToInt16 (encodeAudio x) = some (x.map quantize) := by
  induction x with
  | nil => rfl
  | cons s rest ih =>
    have he : encodeAudio (s :: rest) =
        int16ToBytes (quantize s) ++ encodeAudio rest := by
      simp [encodeAudio]
    obtain ⟨hq1, hq2⟩ := quantize_range s
    rw [he, bytesToInt16_int16ToBytes _ hq1 hq2, ih]
    simp

/-- Full decode-encode round trip at the sample level. -/
lemma decode_encode (x : List ℚ) :
    decodeAudioData (encodeAudio x) =
      some (x.map (fun s => ((quantize s : ℤ) : ℚ) / 32768)) := by
  unfold decodeAudioData
  rw [bytesToInt16_encodeAudio]
  simp [List.map_map, Function.comp]

/-- Per-sample reconstruction error of the codec on in-range samples:
    strictly below two quantization steps. -/
lemma quantize_err (s : ℚ) (h1 : -1 ≤ s) (h2 : s ≤ 1) :
    |((quantize s : ℤ) : ℚ) / 32768 - s| < 1/16384 := by
  rcases lt_or_le s 0 with hneg | hpos
  · rw [quantize_neg s h1 hneg]
    have hle : s * 32768 ≤ (⌈s * 32768⌉ : ℚ) := Int.le_ceil _
    have hlt : (⌈s * 32768⌉ : ℚ) < s * 32768 + 1 := Int.ceil_lt_add_one _
    rw [abs_lt]
    constructor <;> [nlinarith; nlinarith]
  · rw [quantize_nonneg s hpos h2]
    have hle : (⌊s * 32767⌋ : ℚ) ≤ s * 32767 := Int.floor_le _
    have hlt : s * 32767 - 1 < (⌊s * 32767⌋ : ℚ) := Int.sub_one_lt_floor _
    rw [abs_lt]
    constructor <;> [nlinarith; nlinarith]

/-- Every byte produced by the encoder is a byte (below 256). -/
lemma encodeAudio_bytes_lt (x : List ℚ) : ∀ b ∈ encodeAudio x, b < 256 := by
  intro b hb
  unfold encodeAudio at hb
  rw [List.mem_flatMap] at hb
  obtain ⟨s, _, hmem⟩ := hb
  have hu : (quantize s % 65536).toNat < 65536 := by omega
  unfold int16ToBytes at hmem
  simp only [List.mem_cons, List.not_mem_nil, or_false] at hmem
  rcases hmem with rfl | rfl
  · omega
  · omega

/-- Every 16-bit value reconstructed from well-formed bytes is in the
    signed 16-bit range. -/
lemma bytesToInt16_range (bytes : List ℕ) (hb : ∀ b ∈ bytes, b < 256)
    (l : List ℤ) (h : bytesToInt16 bytes = some l) :
    ∀ v ∈ l, -32768 ≤ v ∧ v ≤ 32767 := by
  induction bytes using bytesToInt16.induct generalizing l with
  | case1 =>
    rw [bytesToInt16] at h
    cases h
    intro v hv
    cases hv
  | case2 b =>
    rw [bytesToInt16] at h
    cases h
  | case3 lo hi rest ih =>
    rw [bytesToInt16] at h
    cases hrest : bytesToInt16 rest with
    | none => rw [hrest] at h; cases h
    | some t =>
      rw [hrest] at h
      cases h
      intro v hv
      have hlo : lo < 256 := hb lo (by simp)
      have hhi : hi < 256 := hb hi (by simp)
      rcases List.mem_cons.mp hv with rfl | hvt
      · split
        · next hlt => omega
        · next hlt => omega
      · exact ih (fun b hmem => hb b (by simp [hmem])) t hrest v hvt

/-- A decoded sample is the reconstructed 16-bit value over 32768, hence
    inside `[-1, 32767/32768]`. -/
lemma decode_sample_range (bytes : List ℕ) (hb : ∀ b ∈ bytes, b < 256)
    (samples : List ℚ) (h : decodeAudioData bytes = some samples) :
    ∀ y ∈ samples, -1 ≤ y ∧ y ≤ 32767/32768 := by
  unfold decodeAudioData at h
  cases hbt : bytesToInt16 bytes with
  | none => rw [hbt] at h; cases h
  | some l =>
    rw [hbt] at h
    cases h
    intro y hy
    rw [List.mem_map] at hy
    obtain ⟨v, hvl, rfl⟩ := hy
    obtain ⟨h1, h2⟩ := bytesToInt16_range bytes hb l hbt v hvl
    constructor
    · rw [show (-1 : ℚ) = -32768 / 32768 by norm_num]
      apply div_le_div_of_nonneg_right ?_ (by norm_num)
      exact_mod_cast h1
    · apply div_le_div_of_nonneg_right ?_ (by norm_num)
      exact_mod_cast h2

/-! ## Claim C2 -/

/-- C2 counterexample: the sample 65535/65536 (representable exactly in
    single precision) lies in `[-1, 1]`, yet its reconstruction after
    `decode(encode(·))` is 16383/16384 = 32766/32768, an error of
    3/65536, strictly more than one quantization step 1/32768 = 2/65536. -/
theorem codec_error_exceeds_one_step :
    decodeAudioData (encodeAudio [(65535 : ℚ)/65536]) =
      some [(16383 : ℚ)/16384] ∧
    ¬ |(16383 : ℚ)/16384 - 65535/65536| ≤ 1/32768 ∧
    -1 ≤ (65535 : ℚ)/65536 ∧ (65535 : ℚ)/65536 ≤ 1 := by
  refine ⟨?_, ?_, by norm_num, by norm_num⟩
  · rw [decode_encode]
    simp only [List.map_cons, List.map_nil]
    rw [show quantize ((65535 : ℚ)/65536) = 32766 by
      rw [quantize_nonneg _ (by norm_num) (by norm_num)]; norm_num]
    norm_num
  · rw [abs_of_neg (by norm_num : (16383 : ℚ)/16384 - 65535/65536 < 0)]
    norm_num

/-- C2 amended: decode after encode succeeds and returns a sequence of
    the same length as the input for every sample sequence, including the
    empty one; and for sequences with values in `[-1, 1]` every sample is
    reconstructed with error strictly below two quantization steps,
    2/32768 = 1/16384.  (The one-step bound of the original claim fails:
    see the counterexample.  One step does hold for all negative samples;
    non-negative samples are quantized against 32767 but reconstructed
    against 32768, which can push the error above one step but never to
    two.) -/
theorem codec_roundtrip (x : List ℚ) (hx : ∀ s ∈ x, -1 ≤ s ∧ s ≤ 1) :
    (∀ z : List ℚ, ∃ y, decodeAudioData (encodeAudio z) = some y ∧
      y.length = z.length) ∧
    (∃ y, decodeAudioData (encodeAudio x) = some y ∧ y.length = x.length ∧
      List.Forall₂ (fun a b => |a - b| < 1/16384) y x) := by
  constructor
  · intro z
    exact ⟨_, decode_encode z, by simp⟩
  · refine ⟨x.map (fun s => ((quantize s : ℤ) : ℚ) / 32768),
      decode_encode x, by simp, ?_⟩
    rw [List.forall₂_map_left_iff, List.forall₂_same]
    intro s hs
    obtain ⟨h1, h2⟩ := hx s hs
    exact quantize_err s h1 h2

theorem codec_roundtrip_witness :
    (∀ s ∈ [(1 : ℚ)/2, -1, 0], -1 ≤ s ∧ s ≤ 1) ∧
    ((∀ z : List ℚ, ∃ y, decodeAudioData (encodeAudio z) = some y ∧
        y.length = z.length) ∧
      (∃ y, decodeAudioData (encodeAudio [(1 : ℚ)/2, -1, 0]) = some y ∧
        y.length = [(1 : ℚ)/2, -1, 0].length ∧
        List.Forall₂ (fun a b => |a - b| < 1/16384) y [(1 : ℚ)/2, -1, 0])) :=
  ⟨by norm_num, codec_roundtrip _ (by norm_num)⟩

/-! ## Claim C10 -/

/-- C10: decoded samples always lie in `[-1, 32767/32768]`, a subset of
    `[-1, 1)`: first for any well-formed byte chunk, and in particular for
    the decoding of any encoded sample list — even when the original
    samples lie outside `[-1, 1]`, because the encoder clamps before
    quantizing. -/
theorem decode_output_in_range (bytes : List ℕ) (hb : ∀ b ∈ bytes, b < 256) :
    (∀ samples, decodeAudioData bytes = some samples →
      ∀ y ∈ samples, -1 ≤ y ∧ y ≤ 32767/32768) ∧
    (∀ x : List ℚ, ∀ samples, decodeAudioData (encodeAudio x) = some samples →
      ∀ y ∈ samples, -1 ≤ y ∧ y ≤ 32767/32768) :=
  ⟨fun samples h => decode_sample_range bytes hb samples h,
   fun x samples h =>
     decode_sample_range (encodeAudio x) (encodeAudio_bytes_lt x) samples h⟩

theorem decode_output_in_range_witness :
    (∀ b ∈ [(0 : ℕ), 128], b < 256) ∧
    ((∀ samples, decodeAudioData [(0 : ℕ), 128] = some samples →
        ∀ y ∈ samples, -1 ≤ y ∧ y ≤ 32767/32768) ∧
      (∀ x : List ℚ, ∀ samples, decodeAudioData (encodeAudio x) = some samples →
        ∀ y ∈ samples, -1 ≤ y ∧ y ≤ 32767/32768)) :=
  ⟨by decide, decode_output_in_range [0, 128] (by decide)⟩

/-! ## Scheduler lemmas -/

lemma schedStarts_nil (next : ℚ) : schedStarts next [] = [] := rfl

lemma schedStarts_cons (next : ℚ) (a : ℚ × ℚ) (rest : List (ℚ × ℚ)) :
    schedStarts next (a :: rest) =
      max a.1 next :: schedStarts (max a.1 next + a.2) rest := rfl

/-- Consecutive start times are separated by at least the duration of the
    earlier fragment: on the zip of starts with arrivals, each pair
    satisfies `start + duration ≤ next start`. -/
lemma schedStarts_chain_sep (l : List (ℚ × ℚ)) : ∀ next : ℚ,
    List.Chain' (fun x y : ℚ × (ℚ × ℚ) => x.1 + x.2.2 ≤ y.1)
      ((schedStarts next l).zip l) := by
  induction l with
  | nil => intro next; simp [schedStarts_nil]
  | cons a rest ih =>
    intro next
    cases rest with
    | nil => simp [schedStarts_cons, schedStarts_nil]
    | cons b rest2 =>
      rw [schedStarts_cons, schedStarts_cons, List.zip_cons_cons,
        List.zip_cons_cons, List.chain'_cons]
      constructor
      · exact le_max_right _ _
      · have h2 := ih (max a.1 next + a.2)
        rw [schedStarts_cons, List.zip_cons_cons] at h2
        exact h2

/-- With non-negative durations the assigned start times are
    non-decreasing. -/
lemma schedStarts_mono : ∀ (l : List (ℚ × ℚ)) (next : ℚ),
    (∀ p ∈ l, 0 ≤ p.2) → List.Chain' (· ≤ ·) (schedStarts next l) := by
  intro l
  induction l with
  | nil => intro next _; simp [schedStarts_nil]
  | cons a rest ih =>
    intro next hd
    cases rest with
    | nil => simp [schedStarts_cons, schedStarts_nil]
    | cons b rest2 =>
      rw [schedStarts_cons, schedStarts_cons, List.chain'_cons]
      constructor
      · have ha : 0 ≤ a.2 := hd a (by simp)
        calc max a.1 next ≤ max a.1 next + a.2 := by linarith
          _ ≤ max b.1 (max a.1 next + a.2) := le_max_right _ _
      · have h2 := ih (max a.1 next + a.2) (fun p hp => hd p (by simp [hp]))
        rw [schedStarts_cons] at h2
        exact h2

/-! ## Claim C1 -/

/-- C1: for every sequence of fragment durations submitted with arbitrary
    non-negative arrival delays (device times non-decreasing across
    arrivals), the assigned start times are non-decreasing and each start
    time is at least the previous start plus the previous duration, so no
    two fragments ever overlap. -/
theorem scheduler_no_overlap (arrivals : List (ℚ × ℚ)) (next0 : ℚ)
    (hd : ∀ p ∈ arrivals, 0 ≤ p.2)
    (hnow : List.Chain' (fun p q : ℚ × ℚ => p.1 ≤ q.1) arrivals) :
    List.Chain' (· ≤ ·) (schedStarts next0 arrivals) ∧
      List.Chain' (fun x y : ℚ × (ℚ × ℚ) => x.1 + x.2.2 ≤ y.1)
        ((schedStarts next0 arrivals).zip arrivals) :=
  ⟨schedStarts_mono arrivals next0 hd, schedStarts_chain_sep arrivals next0⟩

theorem scheduler_no_overlap_witness :
    (∀ p ∈ [((0 : ℚ), (1 : ℚ)/10), (0, 1/10), (1/20, 1/10)], 0 ≤ p.2) ∧
    List.Chain' (fun p q : ℚ × ℚ => p.1 ≤ q.1)
      [((0 : ℚ), (1 : ℚ)/10), (0, 1/10), (1/20, 1/10)] ∧
    (List.Chain' (· ≤ ·)
        (schedStarts 0 [((0 : ℚ), (1 : ℚ)/10), (0, 1/10), (1/20, 1/10)]) ∧
      List.Chain' (fun x y : ℚ × (ℚ × ℚ) => x.1 + x.2.2 ≤ y.1)
        ((schedStarts 0 [((0 : ℚ), (1 : ℚ)/10), (0, 1/10), (1/20, 1/10)]).zip
          [((0 : ℚ), (1 : ℚ)/10), (0, 1/10), (1/20, 1/10)])) :=
  ⟨by norm_num, by norm_num,
    scheduler_no_overlap _ 0 (by norm_num) (by norm_num)⟩

/-! ## Claim C8 -/

/-- C8: a fragment of duration `d` arriving at device time one second past
    the current cursor (an upstream stall) is scheduled at its arrival
    time, not at the stale cursor, producing a one-second gap; the cursor
    becomes arrival + duration; exactly the one arriving fragment is
    scheduled (no filler silence is synthesized) and the step is a total
    function (no error for the timing irregularity). -/
theorem stall_schedules_at_arrival (next d : ℚ) (h : 0 ≤ d) :
    (schedStep next (next + 1) d).1 = next + 1 ∧
    (schedStep next (next + 1) d).1 - next = 1 ∧
    (schedStep next (next + 1) d).2 = (next + 1) + d ∧
    schedStarts next [(next + 1, d)] = [next + 1] := by
  have hmax : max (next + 1) next = next + 1 := max_eq_left (by linarith)
  refine ⟨?_, ?_, ?_, ?_⟩ <;>
    simp [schedStep, schedStarts_cons, schedStarts_nil, hmax]

theorem stall_schedules_at_arrival_witness :
    (0 : ℚ) ≤ 1/2 ∧
    ((schedStep 2 (2 + 1) (1/2)).1 = 2 + 1 ∧
      (schedStep 2 (2 + 1) (1/2)).1 - 2 = 1 ∧
      (schedStep 2 (2 + 1) (1/2)).2 = (2 + 1) + 1/2 ∧
      schedStarts 2 [(2 + 1, 1/2)] = [2 + 1]) :=
  ⟨by norm_num, stall_schedules_at_arrival 2 (1/2) (by norm_num)⟩

/-! ## Claim C3 -/

/-- C3: stop halts every pending fragment (halting an already-finished one
    is a safe no-op), leaves the pending set empty, drops the speaking
    flag and resets the cursor to zero; an immediate second call — which
    is a call with nothing pending — performs no halts and returns the
    very same state, so stop is an idempotent total function. -/
theorem stop_idempotent (st : TTSState) :
    (stopAudio st).1.sources = [] ∧
    (stopAudio st).1.nextStartTime = 0 ∧
    (stopAudio st).1.isSpeaking = false ∧
    (∀ s ∈ (stopAudio st).2, s ≠ SrcStatus.playing) ∧
    haltSource SrcStatus.finished = SrcStatus.finished ∧
    stopAudio (stopAudio st).1 = ((stopAudio st).1, []) := by
  refine ⟨rfl, rfl, rfl, ?_, rfl, rfl⟩
  intro s hs
  simp only [stopAudio, List.mem_map] at hs
  obtain ⟨t, _, rfl⟩ := hs
  cases t <;> simp [haltSource]

theorem stop_idempotent_witness :
    (stopAudio ⟨[SrcStatus.playing, SrcStatus.finished], true, 5⟩).1.sources = [] ∧
    (stopAudio ⟨[SrcStatus.playing, SrcStatus.finished], true, 5⟩).1.nextStartTime = 0 ∧
    (stopAudio ⟨[SrcStatus.playing, SrcStatus.finished], true, 5⟩).1.isSpeaking = false ∧
    (∀ s ∈ (stopAudio ⟨[SrcStatus.playing, SrcStatus.finished], true, 5⟩).2,
      s ≠ SrcStatus.playing) ∧
    haltSource SrcStatus.finished = SrcStatus.finished ∧
    stopAudio (stopAudio ⟨[SrcStatus.playing, SrcStatus.finished], true, 5⟩).1 =
      ((stopAudio ⟨[SrcStatus.playing, SrcStatus.finished], true, 5⟩).1, []) :=
  stop_idempotent ⟨[SrcStatus.playing, SrcStatus.finished], true, 5⟩

/-! ## Claim C5 -/

/-- C5 counterexample: from a running cursor of 5 seconds, `stopAudio`
    sets the cursor to zero — a strictly smaller value — and a stop is not
    a session start (whose reset value would be the device's current
    time, here also 5): the cursor is not mutated only by increases and
    session-start resets. -/
theorem cursor_reset_counterexample :
    applyCursorOp 5 CursorOp.stop = 0 ∧ (0 : ℚ) < 5 ∧
      CursorOp.stop ≠ CursorOp.sessionStart 5 :=
  ⟨rfl, by norm_num, by simp⟩

/-- C5 amended: every cursor mutation in the source either leaves the
    cursor no smaller (scheduling a fragment of non-negative duration),
    or resets it to the device's current time (session start in
    `handleSpeak`), or resets it to zero (`stopAudio`). -/
theorem cursor_monotone_or_reset (next : ℚ) (op : CursorOp)
    (h : opWellFormed op) :
    next ≤ applyCursorOp next op ∨
    (∃ now, op = CursorOp.sessionStart now ∧ applyCursorOp next op = now) ∨
    (op = CursorOp.stop ∧ applyCursorOp next op = 0) := by
  cases op with
  | schedule now d =>
    left
    have h1 : next ≤ max now next := le_max_right _ _
    have hd : 0 ≤ d := h
    simp only [applyCursorOp, schedStep]
    linarith
  | sessionStart now => exact Or.inr (Or.inl ⟨now, rfl, rfl⟩)
  | stop => exact Or.inr (Or.inr ⟨rfl, rfl⟩)

theorem cursor_monotone_or_reset_witness :
    opWellFormed (CursorOp.schedule 3 (1/2)) ∧
    ((5 : ℚ) ≤ applyCursorOp 5 (CursorOp.schedule 3 (1/2)) ∨
      (∃ now, CursorOp.schedule 3 (1/2) = CursorOp.sessionStart now ∧
        applyCursorOp 5 (CursorOp.schedule 3 (1/2)) = now) ∨
      (CursorOp.schedule 3 (1/2) = CursorOp.stop ∧
        applyCursorOp 5 (CursorOp.schedule 3 (1/2)) = 0)) :=
  ⟨by norm_num [opWellFormed],
    cursor_monotone_or_reset 5 _ (by norm_num [opWellFormed])⟩

/-! ## Claim C6 -/

/-- A byte list of odd length cannot be viewed as 16-bit samples. -/
lemma bytesToInt16_odd (bytes : List ℕ) (h : bytes.length % 2 = 1) :
    bytesToInt16 bytes = none := by
  induction bytes using bytesToInt16.induct with
  | case1 => simp at h
  | case2 b => rfl
  | case3 lo hi rest ih =>
    have h2 : rest.length % 2 = 1 := by
      simp only [List.length_cons] at h
      omega
    rw [bytesToInt16, ih h2]
    rfl

/-- On the text-to-speech path every malformed chunk is handled by the
    catch branch of `scheduleChunk`: decoding signals failure, the
    fragment is dropped and logged, the state is untouched and subsequent
    chunks schedule as if it had never arrived. -/
lemma scheduleChunk_drops_malformed (st : TTSState) (now now2 : ℚ)
    (bytes good : List ℕ) (h : bytes.length % 2 = 1) :
    decodeAudioData bytes = none ∧
    scheduleChunk st now bytes = (st, none) ∧
    scheduleChunk (scheduleChunk st now bytes).1 now2 good =
      scheduleChunk st now2 good := by
  have hd : decodeAudioData bytes = none := by
    unfold decodeAudioData
    rw [bytesToInt16_odd bytes h]
    rfl
  have hs : scheduleChunk st now bytes = (st, none) := by
    unfold scheduleChunk
    rw [hd]
  exact ⟨hd, hs, by rw [hs]⟩

/-- On the live path the same malformed chunk makes the unguarded decode
    throw out of the `onmessage` callback: nothing is scheduled and no
    state (session status included) changes, but the exception escapes
    uncaught — it is not the dropped-and-logged handling of the
    text-to-speech path. -/
lemma liveOnMessage_throws_malformed (st : LiveState) (now now2 : ℚ)
    (bytes good : List ℕ) (h : bytes.length % 2 = 1) :
    liveOnMessage st now bytes = (st, none, some "RangeError") ∧
    liveOnMessage (liveOnMessage st now bytes).1 now2 good =
      liveOnMessage st now2 good := by
  have hd : decodeAudioData bytes = none := by
    unfold decodeAudioData
    rw [bytesToInt16_odd bytes h]
    rfl
  have h1 : liveOnMessage st now bytes = (st, none, some "RangeError") := by
    unfold liveOnMessage
    rw [hd]
  exact ⟨h1, by rw [h1]⟩

/-- C6: evaluation at the failing input.  The malformed one-byte chunk
    `[7]` decodes to a signalled failure, never to garbage samples.  On
    the text-to-speech path `scheduleChunk` handles it exactly as the
    claim says: dropped, logged, `null` returned, state untouched, and a
    subsequent well-formed chunk schedules as if nothing had happened.
    On the live path the claim fails: `decodeAudioData` runs inside
    `onmessage` with no try/catch, so the same chunk throws uncaught out
    of the callback, unlogged by the code — though the cursor and the
    session status are still untouched (the handler itself never sets the
    error status) and a subsequent well-formed chunk still schedules as
    if the malformed one had never arrived. -/
theorem malformed_chunk_live_uncaught :
    decodeAudioData [(7 : ℕ)] = none ∧
    scheduleChunk (⟨[], false, 5⟩ : TTSState) 1 [(7 : ℕ)] =
      ((⟨[], false, 5⟩ : TTSState), none) ∧
    scheduleChunk (scheduleChunk (⟨[], false, 5⟩ : TTSState) 1 [(7 : ℕ)]).1
        2 (encodeAudio [(1 : ℚ)/2]) =
      scheduleChunk (⟨[], false, 5⟩ : TTSState) 2 (encodeAudio [(1 : ℚ)/2]) ∧
    liveOnMessage (⟨LiveStatus.connected, 5⟩ : LiveState) 1 [(7 : ℕ)] =
      ((⟨LiveStatus.connected, 5⟩ : LiveState), none, some "RangeError") ∧
    (liveOnMessage (⟨LiveStatus.connected, 5⟩ : LiveState) 1
      [(7 : ℕ)]).1.status ≠ LiveStatus.error ∧
    liveOnMessage
        (liveOnMessage (⟨LiveStatus.connected, 5⟩ : LiveState) 1 [(7 : ℕ)]).1
        2 (encodeAudio [(1 : ℚ)/2]) =
      liveOnMessage (⟨LiveStatus.connected, 5⟩ : LiveState) 2
        (encodeAudio [(1 : ℚ)/2]) :=
  ⟨rfl, rfl, rfl, rfl, by decide, rfl⟩

/-! ## Capture lemmas -/

lemma foldl_sumsq (l : List ℚ) : ∀ acc : ℚ,
    List.foldl (fun a s => a + s * s) acc l =
      acc + (l.map (fun s => s * s)).sum := by
  induction l with
  | nil => intro acc; simp
  | cons s rest ih =>
    intro acc
    simp only [List.foldl_cons, List.map_cons, List.sum_cons, ih]
    ring

/-- The accumulation loop computes the sum of squares of the frame. -/
lemma frameSumSq_eq (frame : List ℚ) :
    frameSumSq frame = (frame.map (fun s => s * s)).sum := by
  unfold frameSumSq
  rw [foldl_sumsq]
  ring

/-- The published loudness, written with the sum of squares spelled out:
    `min(sqrt(meanSquare) * 5, 1)`. -/
lemma loudness_spec (frame : List ℚ) :
    loudness frame =
      min (Real.sqrt ((((frame.map (fun s => s * s)).sum : ℚ) : ℝ) /
        (frame.length : ℝ)) * 5) 1 := by
  unfold loudness rms
  rw [frameSumSq_eq]

/-! ## Claim C4 -/

/-- C4 counterexample: processing a frame while muted publishes no
    loudness value at all (and sends nothing): the `if (isMuted) return;`
    at the top of the callback skips the RMS/loudness step, not only the
    encode-and-send step. -/
theorem muted_frame_publishes_nothing :
    (onaudioprocess true [(1 : ℚ)/2]).volumeUpdate = none ∧
    (onaudioprocess true [(1 : ℚ)/2]).sentChunk = none :=
  ⟨rfl, rfl⟩

/-- C4 amended: when muted, the entire per-frame step is skipped — no
    loudness computation or publication and no encode or transport call;
    when unmuted, the published loudness is exactly
    `min(sqrt(sumOfSquares/length) * 5, 1)` and the encoded frame is
    delivered to the transport. -/
theorem mute_gates_entire_callback (muted : Bool) (frame : List ℚ) :
    (muted = true → onaudioprocess muted frame = ⟨none, none⟩) ∧
    (muted = false →
      (onaudioprocess muted frame).volumeUpdate =
        some (min (Real.sqrt ((((frame.map (fun s => s * s)).sum : ℚ) : ℝ) /
          (frame.length : ℝ)) * 5) 1) ∧
      (onaudioprocess muted frame).sentChunk = some (encodeAudio frame)) := by
  constructor
  · intro h
    rw [h]
    rfl
  · intro h
    rw [h]
    exact ⟨by simp [onaudioprocess, loudness_spec], by simp [onaudioprocess]⟩

theorem mute_gates_entire_callback_witness :
    ((true : Bool) = true → onaudioprocess true [(1 : ℚ)/3] = ⟨none, none⟩) ∧
    ((true : Bool) = false →
      (onaudioprocess true [(1 : ℚ)/3]).volumeUpdate =
        some (min (Real.sqrt (((([(1 : ℚ)/3].map (fun s => s * s)).sum : ℚ) : ℝ) /
          (([(1 : ℚ)/3] : List ℚ).length : ℝ)) * 5) 1) ∧
      (onaudioprocess true [(1 : ℚ)/3]).sentChunk =
        some (encodeAudio [(1 : ℚ)/3])) :=
  mute_gates_entire_callback true [(1 : ℚ)/3]

/-! ## Claim C9 -/

lemma frameSumSq_replicate_zero (n : ℕ) :
    frameSumSq (List.replicate n (0 : ℚ)) = 0 := by
  rw [frameSumSq_eq]
  simp

lemma frameSumSq_replicate_one (n : ℕ) :
    frameSumSq (List.replicate n (1 : ℚ)) = n := by
  rw [frameSumSq_eq]
  simp

/-- C9: the published loudness `min(rms * 5, 1)` lies in `[0, 1]` for
    every frame; an all-zero frame yields exactly 0 and a full-scale
    frame yields exactly 1 (clamped). -/
theorem loudness_in_range (frame : List ℚ) (n : ℕ) (hn : 0 < n) :
    (0 ≤ loudness frame ∧ loudness frame ≤ 1) ∧
    loudness (List.replicate n (0 : ℚ)) = 0 ∧
    loudness (List.replicate n (1 : ℚ)) = 1 := by
  refine ⟨⟨?_, min_le_right _ _⟩, ?_, ?_⟩
  · exact le_min (mul_nonneg (Real.sqrt_nonneg _) (by norm_num)) (by norm_num)
  · unfold loudness rms
    rw [frameSumSq_replicate_zero]
    simp
  · unfold loudness rms
    rw [frameSumSq_replicate_one, List.length_replicate]
    have hq : (((n : ℚ) : ℝ)) / ((n : ℝ)) = 1 := by
      rw [Rat.cast_natCast]
      field_simp
    rw [hq, Real.sqrt_one]
    norm_num

theorem loudness_in_range_witness :
    0 < 4096 ∧
    ((0 ≤ loudness [(1 : ℚ)/2] ∧ loudness [(1 : ℚ)/2] ≤ 1) ∧
      loudness (List.replicate 4096 (0 : ℚ)) = 0 ∧
      loudness (List.replicate 4096 (1 : ℚ)) = 1) :=
  ⟨by decide, loudness_in_range [(1 : ℚ)/2] 4096 (by decide)⟩

/-! ## Claim C7 -/

/-- C7: the live-session teardown releases every owned resource on its
    first call (tracks stopped, graph disconnected, context closed, no
    error), but a second call re-invokes `close()` on the already-closed
    output context, which signals InvalidStateError — the unguarded
    `audioContextRef.current.close()` makes the second teardown not a
    silent no-op.  The message-bubble teardown, which guards `close()`
    with a state check, is error-free on both the first and the second
    call, as the claim demands. -/
theorem double_teardown_close_error :
    (liveCleanup ⟨some [true], some true, some true, some CtxState.running⟩).2
      = [] ∧
    (liveCleanup ⟨some [true], some true, some true, some CtxState.running⟩).1
      = ⟨some [false], some false, some false, some CtxState.closed⟩ ∧
    (liveCleanup (liveCleanup ⟨some [true], some true, some true,
      some CtxState.running⟩).1).2 = ["InvalidStateError"] ∧
    (bubbleCleanup ⟨[SrcStatus.playing], true, 5⟩ (some CtxState.running)).2.2
      = [] ∧
    (bubbleCleanup
      (bubbleCleanup ⟨[SrcStatus.playing], true, 5⟩ (some CtxState.running)).1
      (bubbleCleanup ⟨[SrcStatus.playing], true, 5⟩
        (some CtxState.running)).2.1).2.2 = [] :=
  ⟨rfl, rfl, rfl, rfl, rfl⟩

end AudioCore
